import Mathlib

/-!
Verification development for the NextTube transcode pipeline.

The repository ships the web frontend (`apps/web/app/page.tsx`,
`apps/web/app/watch/[id]/page.tsx`) together with a specification of the
transcode orchestration core (producer, work queue, worker, playlist
assembler).  The core's code is not part of the source tree, so those
components are modelled here from the specification text; the frontend
handlers are embedded from their TypeScript source.
-/

namespace NextTube

/-- Rendition lifecycle states, from the data model:
`status ∈ {queued, running, ready, failed}`. -/
inductive RendStatus
  | queued
  | running
  | ready
  | failed
deriving DecidableEq, Repr

/-- Job lifecycle states, from the data model:
`status ∈ {queued, running, done, failed}`. -/
inductive JobStatus
  | queued
  | running
  | done
  | failed
deriving DecidableEq, Repr

/-- One rendition row: `renditions(video_id, height, status, key, error)`;
the row is keyed by the profile (target height) within one job. -/
structure Rendition where
  profile : Nat
  status : RendStatus
  key : Option String
  error : Option String
deriving DecidableEq, Repr

/-- One variant entry handed to the Playlist Assembler: variant-playlist
key plus known target bandwidth and resolution (target height). -/
structure Variant where
  height : Nat
  bandwidth : Nat
  uri : String
deriving DecidableEq, Repr

/-- Ordering of variants by resolution (target height), ascending. -/
def variantLe (a b : Variant) : Prop := a.height ≤ b.height

instance : DecidableRel variantLe := fun a b => Nat.decLe a.height b.height

instance : IsTotal Variant variantLe := ⟨fun a b => Nat.le_total a.height b.height⟩

instance : IsTrans Variant variantLe := ⟨fun _ _ _ h h2 => Nat.le_trans h h2⟩

/-- Modelled from the spec: the Playlist Assembler's variant ordering —
the master manifest lists variants "ordered ascending by resolution
(lowest first)".  The assembler itself is not in the source tree. -/
def assembleMaster (vs : List Variant) : List Variant :=
  List.insertionSort variantLe vs

/-- Modelled from the spec: one `#EXT-X-STREAM-INF` entry of the master
manifest, carrying the variant's approximate bandwidth and resolution
attributes followed by its variant-playlist key. -/
def renderVariant (v : Variant) : String :=
  "#EXT-X-STREAM-INF:BANDWIDTH=" ++ toString v.bandwidth ++
    ",RESOLUTION=" ++ toString v.height ++ "\n" ++ v.uri ++ "\n"

/-- Modelled from the spec: the Playlist Assembler — "given the set of
ready renditions ... produce a master manifest listing each variant with
its approximate bandwidth and resolution attributes, ordered ascending by
resolution".  Produces the manifest bytes as a string. -/
def buildMaster (vs : List Variant) : String :=
  "#EXTM3U\n" ++ String.join ((assembleMaster vs).map renderVariant)

/-- Strict ordering of variants by resolution. -/
def variantLt (a b : Variant) : Prop := a.height < b.height

instance : IsAntisymm Variant variantLt :=
  ⟨fun _ _ h h2 => absurd (Nat.lt_trans h h2) (Nat.lt_irrefl _)⟩

theorem sorted_lt_of_sorted_le_nodup (l : List Variant)
    (hs : l.Sorted variantLe) (hn : (l.map Variant.height).Nodup) :
    l.Sorted variantLt := by
  have hne : l.Pairwise (fun a b : Variant => a.height ≠ b.height) := by
    rw [List.Nodup, List.pairwise_map] at hn
    exact hn
  exact (hne.and hs).imp fun h => Nat.lt_of_le_of_ne h.2 h.1

theorem assembleMaster_perm_self (l : List Variant) : (assembleMaster l).Perm l :=
  List.perm_insertionSort variantLe l

theorem assembleMaster_sorted (l : List Variant) :
    (assembleMaster l).Sorted variantLe :=
  List.sorted_insertionSort variantLe l

/-- C4: the Playlist Assembler is deterministic and order-insensitive —
on two presentations of the same set of ready renditions (a permutation,
with pairwise distinct resolutions) it produces byte-identical master
manifests, and the variants appear in the manifest ordered ascending by
resolution (lowest first). -/
theorem c4_playlist_assembler_deterministic (l1 l2 : List Variant)
    (hperm : l1.Perm l2) (hn : (l1.map Variant.height).Nodup) :
    buildMaster l1 = buildMaster l2 ∧
      ((assembleMaster l1).map Variant.height).Sorted (· ≤ ·) := by
  have hn2 : (l2.map Variant.height).Nodup := ((hperm.map Variant.height).nodup_iff).mp hn
  have hn1s : ((assembleMaster l1).map Variant.height).Nodup :=
    (((assembleMaster_perm_self l1).map Variant.height).nodup_iff).mpr hn
  have hn2s : ((assembleMaster l2).map Variant.height).Nodup :=
    (((assembleMaster_perm_self l2).map Variant.height).nodup_iff).mpr hn2
  have hsorted1 := sorted_lt_of_sorted_le_nodup _ (assembleMaster_sorted l1) hn1s
  have hsorted2 := sorted_lt_of_sorted_le_nodup _ (assembleMaster_sorted l2) hn2s
  have hp : (assembleMaster l1).Perm (assembleMaster l2) :=
    ((assembleMaster_perm_self l1).trans hperm).trans (assembleMaster_perm_self l2).symm
  have heq : assembleMaster l1 = assembleMaster l2 :=
    List.eq_of_perm_of_sorted hp hsorted1 hsorted2
  refine ⟨?_, ?_⟩
  · unfold buildMaster
    rw [heq]
  · exact List.Pairwise.map Variant.height (fun _ _ h => h) (assembleMaster_sorted l1)

/-- C4 witness: two orderings of a concrete two-variant ready set. -/
theorem c4_playlist_assembler_deterministic_witness :
    buildMaster [⟨480, 800, "HLS/v/480/index.m3u8"⟩, ⟨240, 400, "HLS/v/240/index.m3u8"⟩] =
      buildMaster [⟨240, 400, "HLS/v/240/index.m3u8"⟩, ⟨480, 800, "HLS/v/480/index.m3u8"⟩] ∧
    ((assembleMaster [⟨480, 800, "HLS/v/480/index.m3u8"⟩,
        ⟨240, 400, "HLS/v/240/index.m3u8"⟩]).map Variant.height).Sorted (· ≤ ·) :=
  c4_playlist_assembler_deterministic _ _ (by decide) (by decide)

/-! ### Transcode Worker state machine (modelled from the spec, §4.3)

The worker's code is not in the source tree; the spec's algorithm is
modelled as a trace of status-update and storage events, folded into a
final pipeline state.  The per-profile encode-and-upload outcome is an
oracle `encode : Nat → Except String String` returning either the variant
playlist's storage key or the captured error message; the source download
of step 3 is an oracle `download : Except String Unit`. -/

/-- Observable pipeline events: metadata status updates and the master
playlist upload performed while the worker processes one descriptor. -/
inductive Event
  | jobRunning
  | rendRunning (p : Nat)
  | rendReady (p : Nat) (key : String)
  | rendFailed (p : Nat) (err : String)
  | uploadMaster (vs : List Variant)
  | jobDone
  | jobFailed (err : String)
deriving DecidableEq, Repr

/-- Modelled from the spec: step 4 of §4.3 — for one profile, on encode
and upload success mark the rendition ready with its storage key, on
failure mark it failed with the captured error message. -/
def profileEvent (encode : Nat → Except String String) (p : Nat) : Event :=
  match encode p with
  | .ok k => .rendReady p k
  | .error e => .rendFailed p e

/-- Modelled from the spec: the set of ready renditions handed to the
Playlist Assembler in step 5, one variant per successfully encoded
profile (its height, target bandwidth and variant-playlist key). -/
def readyVariants (encode : Nat → Except String String) (bw : Nat → Nat)
    (profiles : List Nat) : List Variant :=
  profiles.filterMap fun p =>
    match encode p with
    | .ok k => some ⟨p, bw p, k⟩
    | .error _ => none

/-- Modelled from the spec: the "aggregate error summarizing per-profile
failures" recorded when zero renditions are ready. -/
def aggregateError (encode : Nat → Except String String)
    (profiles : List Nat) : String :=
  String.intercalate "; " (profiles.filterMap fun p =>
    match encode p with
    | .ok _ => none
    | .error e => some (toString p ++ ": " ++ e))

/-- Modelled from the spec: the event trace of one processing attempt
(§4.3): mark the job running, mark every listed rendition running,
download the source (a setup failure is fatal to the job, §7), process
each profile independently, then either upload the master playlist and
mark the job done (at least one ready) or mark the job failed (zero
ready). -/
def workerTrace (download : Except String Unit)
    (encode : Nat → Except String String) (bw : Nat → Nat)
    (profiles : List Nat) : List Event :=
  Event.jobRunning :: (profiles.map Event.rendRunning ++
    match download with
    | .error e => [Event.jobFailed e]
    | .ok _ =>
      profiles.map (profileEvent encode) ++
        (if (readyVariants encode bw profiles).isEmpty then
          [Event.jobFailed (aggregateError encode profiles)]
        else
          [Event.uploadMaster (assembleMaster (readyVariants encode bw profiles)),
           Event.jobDone]))

/-- Pipeline state: the job row, its rendition rows keyed by profile
height (mirroring `renditions(video_id, height, ...)`), and the master
manifest object in storage (the variant list it was assembled from;
its bytes are `buildMaster` of that list). -/
@[ext]
structure PipeState where
  job : JobStatus
  jobError : Option String
  renditions : Nat → Option Rendition
  master : Option (List Variant)

/-- Update one rendition row, keyed by profile height. -/
def updateRend (rs : Nat → Option Rendition) (p : Nat)
    (f : Rendition → Rendition) : Nat → Option Rendition :=
  fun q => if q = p then (rs q).map f else rs q

/-- Mark a rendition row running. -/
def markRunning (r : Rendition) : Rendition := { r with status := .running }

/-- Mark a rendition row ready, recording its storage key. -/
def markReady (k : String) (r : Rendition) : Rendition :=
  { r with status := .ready, key := some k }

/-- Mark a rendition row failed with the captured error message. -/
def markFailed (e : String) (r : Rendition) : Rendition :=
  { r with status := .failed, error := some e }

/-- The row update a profile's terminal event performs. -/
def applyOutcome (encode : Nat → Except String String) (p : Nat) :
    Rendition → Rendition :=
  match encode p with
  | .ok k => markReady k
  | .error e => markFailed e

/-- Interpret one event as a metadata/storage state update. -/
def applyEvent (s : PipeState) : Event → PipeState
  | .jobRunning => { s with job := .running }
  | .rendRunning p =>
      { s with renditions := updateRend s.renditions p markRunning }
  | .rendReady p k =>
      { s with renditions := updateRend s.renditions p (markReady k) }
  | .rendFailed p e =>
      { s with renditions := updateRend s.renditions p (markFailed e) }
  | .uploadMaster vs => { s with master := some vs }
  | .jobDone => { s with job := .done }
  | .jobFailed e => { s with job := .failed, jobError := some e }

/-- Fold a list of events over a pipeline state. -/
def runEvents (s : PipeState) (evs : List Event) : PipeState :=
  evs.foldl applyEvent s

/-- A freshly created rendition row (producer: one `queued` row per
requested profile). -/
def initRow (p : Nat) : Rendition := ⟨p, .queued, none, none⟩

/-- State left by the producer before the worker runs: job queued, one
queued rendition row per listed profile, no master manifest. -/
def initState (profiles : List Nat) : PipeState :=
  { job := .queued, jobError := none,
    renditions := fun p => if p ∈ profiles then some (initRow p) else none,
    master := none }

/-- Final pipeline state of one processing attempt. -/
def processJob (download : Except String Unit)
    (encode : Nat → Except String String) (bw : Nat → Nat)
    (profiles : List Nat) : PipeState :=
  runEvents (initState profiles) (workerTrace download encode bw profiles)

/-- A rendition row's value at the end of a fully processed attempt. -/
def finalRow (encode : Nat → Except String String) (p : Nat) : Rendition :=
  match encode p with
  | .ok k => ⟨p, .ready, some k, none⟩
  | .error e => ⟨p, .failed, none, some e⟩

theorem runEvents_nil (s : PipeState) : runEvents s [] = s := rfl

theorem runEvents_cons (s : PipeState) (e : Event) (evs : List Event) :
    runEvents s (e :: evs) = runEvents (applyEvent s e) evs := rfl

theorem runEvents_append (s : PipeState) (l1 l2 : List Event) :
    runEvents s (l1 ++ l2) = runEvents (runEvents s l1) l2 :=
  List.foldl_append applyEvent s l1 l2

theorem runEvents_block (g : Nat → Event) (u : Nat → Rendition → Rendition)
    (hg : ∀ s q, applyEvent s (g q) =
      { s with renditions := updateRend s.renditions q (u q) })
    (hu : ∀ q r, u q (u q r) = u q r)
    (ps : List Nat) : ∀ s : PipeState,
    runEvents s (ps.map g) =
      { s with renditions := fun p =>
          if p ∈ ps then (s.renditions p).map (u p) else s.renditions p } := by
  induction ps with
  | nil =>
      intro s
      rw [List.map_nil, runEvents_nil]
      ext1 <;> rfl
  | cons a t ih =>
      intro s
      rw [List.map_cons, runEvents_cons, ih, hg]
      ext1 <;> try rfl
      funext p
      by_cases hpa : p = a
      · subst hpa
        by_cases hpt : p ∈ t
        · simp only [updateRend, if_pos rfl, if_pos hpt, List.mem_cons, true_or,
            if_pos]
          cases s.renditions p <;> simp [hu]
        · simp [updateRend, hpt, List.mem_cons]
      · by_cases hpt : p ∈ t <;> simp [updateRend, hpa, hpt, List.mem_cons]

theorem runEvents_rendRunning (ps : List Nat) (s : PipeState) :
    runEvents s (ps.map Event.rendRunning) =
      { s with renditions := fun p =>
          if p ∈ ps then (s.renditions p).map markRunning
          else s.renditions p } :=
  runEvents_block Event.rendRunning (fun _ => markRunning)
    (fun _ _ => rfl) (fun _ _ => rfl) ps s

theorem runEvents_profileEvents (encode : Nat → Except String String)
    (ps : List Nat) (s : PipeState) :
    runEvents s (ps.map (profileEvent encode)) =
      { s with renditions := fun p =>
          if p ∈ ps then (s.renditions p).map (applyOutcome encode p)
          else s.renditions p } :=
  runEvents_block (profileEvent encode) (applyOutcome encode)
    (fun s q => by
      unfold profileEvent applyOutcome
      cases encode q <;> rfl)
    (fun q r => by
      unfold applyOutcome
      cases encode q <;> rfl) ps s

theorem applyOutcome_markRunning_initRow (encode : Nat → Except String String)
    (p : Nat) :
    applyOutcome encode p (markRunning (initRow p)) = finalRow encode p := by
  unfold applyOutcome finalRow markRunning markReady markFailed initRow
  cases encode p <;> rfl

/-- Closed form of the final state after a fully processed attempt
(successful source download). -/
theorem processJob_ok (encode : Nat → Except String String) (bw : Nat → Nat)
    (ps : List Nat) :
    processJob (.ok ()) encode bw ps =
      { job := if (readyVariants encode bw ps).isEmpty then .failed else .done,
        jobError := if (readyVariants encode bw ps).isEmpty then
          some (aggregateError encode ps) else none,
        renditions := fun p => if p ∈ ps then some (finalRow encode p) else none,
        master := if (readyVariants encode bw ps).isEmpty then none
          else some (assembleMaster (readyVariants encode bw ps)) } := by
  have h1 : workerTrace (.ok ()) encode bw ps =
      Event.jobRunning :: (ps.map Event.rendRunning ++
        (ps.map (profileEvent encode) ++
          (if (readyVariants encode bw ps).isEmpty then
            [Event.jobFailed (aggregateError encode ps)]
          else
            [Event.uploadMaster (assembleMaster (readyVariants encode bw ps)),
             Event.jobDone]))) := rfl
  unfold processJob
  rw [h1, runEvents_cons, runEvents_append, runEvents_append,
    runEvents_rendRunning, runEvents_profileEvents]
  by_cases hempty : (readyVariants encode bw ps).isEmpty
  · rw [if_pos hempty, if_pos hempty, if_pos hempty, if_pos hempty]
    ext1 <;> try rfl
    funext p
    by_cases hp : p ∈ ps <;>
      simp [runEvents, applyEvent, initState, hp, applyOutcome_markRunning_initRow]
  · rw [if_neg hempty, if_neg hempty, if_neg hempty, if_neg hempty]
    ext1 <;> try rfl
    funext p
    by_cases hp : p ∈ ps <;>
      simp [runEvents, applyEvent, initState, hp, applyOutcome_markRunning_initRow]

/-- Closed form of the final state when the source download fails: the
job is failed with the captured cause, every listed rendition is left
running, no master manifest is uploaded. -/
theorem processJob_err (msg : String) (encode : Nat → Except String String)
    (bw : Nat → Nat) (ps : List Nat) :
    processJob (.error msg) encode bw ps =
      { job := .failed, jobError := some msg,
        renditions := fun p =>
          if p ∈ ps then some (markRunning (initRow p)) else none,
        master := none } := by
  have h1 : workerTrace (.error msg) encode bw ps =
      Event.jobRunning :: (ps.map Event.rendRunning ++
        [Event.jobFailed msg]) := rfl
  unfold processJob
  rw [h1, runEvents_cons, runEvents_append, runEvents_rendRunning]
  ext1 <;> try rfl
  funext p
  by_cases hp : p ∈ ps <;> simp [runEvents, applyEvent, initState, hp]

theorem mem_readyVariants (encode : Nat → Except String String)
    (bw : Nat → Nat) (ps : List Nat) (v : Variant) :
    v ∈ readyVariants encode bw ps ↔
      ∃ p, p ∈ ps ∧ ∃ k, encode p = .ok k ∧ v = ⟨p, bw p, k⟩ := by
  unfold readyVariants
  rw [List.mem_filterMap]
  constructor
  · rintro ⟨p, hp, hg⟩
    refine ⟨p, hp, ?_⟩
    cases he : encode p with
    | ok k =>
        rw [he] at hg
        exact ⟨k, rfl, (Option.some_inj.mp hg).symm⟩
    | error e =>
        rw [he] at hg
        cases hg
  · rintro ⟨p, hp, k, hk, rfl⟩
    exact ⟨p, hp, by rw [hk]⟩

theorem finalRow_of_ok {encode : Nat → Except String String} {p : Nat}
    {k : String} (h : encode p = .ok k) :
    finalRow encode p = ⟨p, .ready, some k, none⟩ := by
  unfold finalRow
  rw [h]

theorem finalRow_of_error {encode : Nat → Except String String} {p : Nat}
    {e : String} (h : encode p = .error e) :
    finalRow encode p = ⟨p, .failed, none, some e⟩ := by
  unfold finalRow
  rw [h]

theorem finalRow_ready_iff (encode : Nat → Except String String) (p : Nat) :
    (finalRow encode p).status = .ready ↔ ∃ k, encode p = .ok k := by
  cases he : encode p with
  | ok k => simp [finalRow_of_ok he, he]
  | error e => simp [finalRow_of_error he, he]

/-- C1: if the job ends a processing attempt `done`, then at least one
of its renditions is `ready`, the master manifest exists in storage, and
it references exactly the ready renditions — every variant it lists
corresponds to a `ready` rendition row (with its key), and every `ready`
rendition row appears among its variants. -/
theorem c1_done_implies_ready_and_master (download : Except String Unit)
    (encode : Nat → Except String String) (bw : Nat → Nat) (ps : List Nat)
    (h : (processJob download encode bw ps).job = .done) :
    (∃ p r, (processJob download encode bw ps).renditions p = some r ∧
      r.status = .ready) ∧
    ∃ vs, (processJob download encode bw ps).master = some vs ∧
      (∀ v ∈ vs, ∃ r, (processJob download encode bw ps).renditions v.height =
        some r ∧ r.status = .ready ∧ r.key = some v.uri) ∧
      (∀ p r, (processJob download encode bw ps).renditions p = some r →
        r.status = .ready → ∃ v ∈ vs, v.height = p) := by
  cases download with
  | error msg =>
      rw [processJob_err] at h
      simp at h
  | ok u =>
      cases u
      rw [processJob_ok] at h ⊢
      by_cases hempty : (readyVariants encode bw ps).isEmpty
      · rw [if_pos hempty] at h
        simp at h
      · simp only [if_neg hempty]
        have hne : readyVariants encode bw ps ≠ [] := by
          intro hnil
          rw [hnil] at hempty
          exact hempty rfl
        obtain ⟨v0, hv0⟩ := List.exists_mem_of_ne_nil _ hne
        obtain ⟨p0, hp0, k0, hk0, hv0eq⟩ := (mem_readyVariants _ _ _ _).mp hv0
        constructor
        · refine ⟨p0, finalRow encode p0, ?_, ?_⟩
          · simp [hp0]
          · rw [finalRow_of_ok hk0]
        · refine ⟨assembleMaster (readyVariants encode bw ps), rfl, ?_, ?_⟩
          · intro v hv
            have hvr : v ∈ readyVariants encode bw ps :=
              (assembleMaster_perm_self _).mem_iff.mp hv
            obtain ⟨p, hp, k, hk, rfl⟩ := (mem_readyVariants _ _ _ _).mp hvr
            refine ⟨finalRow encode p, by simp [hp], ?_, ?_⟩
            · rw [finalRow_of_ok hk]
            · rw [finalRow_of_ok hk]
          · intro p r hr hready
            by_cases hp : p ∈ ps
            · simp only [if_pos hp, Option.some_inj] at hr
              subst hr
              obtain ⟨k, hk⟩ := (finalRow_ready_iff encode p).mp hready
              refine ⟨⟨p, bw p, k⟩, ?_, rfl⟩
              exact (assembleMaster_perm_self _).mem_iff.mpr
                ((mem_readyVariants _ _ _ _).mpr ⟨p, hp, k, hk, rfl⟩)
            · simp [hp] at hr

/-- C1 witness: a one-profile job whose encode succeeds ends `done` with
a ready rendition and a master manifest referencing it. -/
theorem c1_done_implies_ready_and_master_witness :
    (∃ p r, (processJob (.ok ()) (fun _ => .ok "HLS/v/240/index.m3u8")
        (fun _ => 400) [240]).renditions p = some r ∧ r.status = .ready) ∧
    ∃ vs, (processJob (.ok ()) (fun _ => .ok "HLS/v/240/index.m3u8")
        (fun _ => 400) [240]).master = some vs ∧
      (∀ v ∈ vs, ∃ r, (processJob (.ok ()) (fun _ => .ok "HLS/v/240/index.m3u8")
        (fun _ => 400) [240]).renditions v.height = some r ∧
        r.status = .ready ∧ r.key = some v.uri) ∧
      (∀ p r, (processJob (.ok ()) (fun _ => .ok "HLS/v/240/index.m3u8")
        (fun _ => 400) [240]).renditions p = some r →
        r.status = .ready → ∃ v ∈ vs, v.height = p) :=
  c1_done_implies_ready_and_master _ _ _ _ rfl

theorem readyVariants_empty_iff (encode : Nat → Except String String)
    (bw : Nat → Nat) (ps : List Nat) :
    (readyVariants encode bw ps).isEmpty = true ↔
      ∀ p ∈ ps, ∀ k, encode p ≠ .ok k := by
  rw [List.isEmpty_iff, List.eq_nil_iff_forall_not_mem]
  constructor
  · intro h p hp k hk
    exact h ⟨p, bw p, k⟩ ((mem_readyVariants _ _ _ _).mpr ⟨p, hp, k, hk, rfl⟩)
  · rintro h v hv
    obtain ⟨p, hp, k, hk, rfl⟩ := (mem_readyVariants _ _ _ _).mp hv
    exact h p hp k hk

/-- C2 counterexample: when the source download fails (a fatal setup
failure, §7), the job is marked `failed` while its renditions are still
`running` — so "failed implies every rendition terminal and none ready"
does not hold as stated. -/
theorem c2_counterexample :
    ¬ ((processJob (.error "boom") (fun _ => .ok "k") (fun _ => 400)
          [240]).job = .failed →
       ∀ p r, (processJob (.error "boom") (fun _ => .ok "k") (fun _ => 400)
          [240]).renditions p = some r →
         (r.status = .ready ∨ r.status = .failed) ∧ r.status ≠ .ready) := by
  intro h
  have hrow : (processJob (.error "boom") (fun _ => .ok "k") (fun _ => 400)
      [240]).renditions 240 = some (markRunning (initRow 240)) := by
    rw [processJob_err]
    simp
  have := (h rfl 240 (markRunning (initRow 240)) hrow).1
  exact absurd this (by decide)

/-- C2 (amended): at the end of a processing attempt the job is `failed`
if and only if zero renditions succeeded (none is `ready`); and provided
the source download succeeded (no fatal setup failure), `failed`
additionally implies every rendition row is terminal — in fact `failed`. -/
theorem c2_failed_iff_zero_ready (download : Except String Unit)
    (encode : Nat → Except String String) (bw : Nat → Nat) (ps : List Nat) :
    ((processJob download encode bw ps).job = .failed ↔
      ∀ p r, (processJob download encode bw ps).renditions p = some r →
        r.status ≠ .ready) ∧
    (download = .ok () → (processJob download encode bw ps).job = .failed →
      ∀ p r, (processJob download encode bw ps).renditions p = some r →
        r.status = .failed) := by
  constructor
  · constructor
    · intro hfail p r hr
      cases download with
      | error msg =>
          rw [processJob_err] at hr
          by_cases hp : p ∈ ps
          · simp only [if_pos hp, Option.some_inj] at hr
            subst hr
            simp [markRunning, initRow]
          · simp [hp] at hr
      | ok u =>
          cases u
          rw [processJob_ok] at hfail hr
          by_cases hempty : (readyVariants encode bw ps).isEmpty
          · have hallerr := (readyVariants_empty_iff encode bw ps).mp hempty
            by_cases hp : p ∈ ps
            · simp only [if_pos hp, Option.some_inj] at hr
              subst hr
              intro hready
              obtain ⟨k, hk⟩ := (finalRow_ready_iff encode p).mp hready
              exact hallerr p hp k hk
            · simp [hp] at hr
          · simp only [if_neg hempty] at hfail
            simp at hfail
    · intro hnone
      cases download with
      | error msg =>
          rw [processJob_err]
      | ok u =>
          cases u
          rw [processJob_ok] at hnone ⊢
          by_cases hempty : (readyVariants encode bw ps).isEmpty
          · simp [hempty]
          · exfalso
            have hne : readyVariants encode bw ps ≠ [] := by
              intro hnil
              rw [hnil] at hempty
              exact hempty rfl
            obtain ⟨v0, hv0⟩ := List.exists_mem_of_ne_nil _ hne
            obtain ⟨p0, hp0, k0, hk0, _⟩ := (mem_readyVariants _ _ _ _).mp hv0
            have := hnone p0 (finalRow encode p0) (by simp [hp0])
            rw [finalRow_of_ok hk0] at this
            exact this rfl
  · intro hdl hfail p r hr
    subst hdl
    rw [processJob_ok] at hfail hr
    by_cases hempty : (readyVariants encode bw ps).isEmpty
    · have hallerr := (readyVariants_empty_iff encode bw ps).mp hempty
      by_cases hp : p ∈ ps
      · simp only [if_pos hp, Option.some_inj] at hr
        subst hr
        cases hk : encode p with
        | ok k => exact absurd hk (hallerr p hp k)
        | error e => rw [finalRow_of_error hk]
      · simp [hp] at hr
    · simp only [if_neg hempty] at hfail
      simp at hfail

/-- C2 witness: a job whose single encode fails ends `failed`, and its
rendition row is terminal `failed`. -/
theorem c2_failed_iff_zero_ready_witness :
    ((⟨240, RendStatus.failed, none, some "boom"⟩ : Rendition)).status =
      RendStatus.failed :=
  (c2_failed_iff_zero_ready (.ok ()) (fun _ => .error "boom")
    (fun _ => 400) [240]).2 rfl rfl 240 _ rfl

/-- The sequence of status values written for profile `p`'s rendition
row by the operations in a pipeline event trace. -/
def statusEvents (p : Nat) (tr : List Event) : List RendStatus :=
  tr.filterMap fun e =>
    match e with
    | .rendRunning q => if q = p then some .running else none
    | .rendReady q _ => if q = p then some .ready else none
    | .rendFailed q _ => if q = p then some .failed else none
    | _ => none

/-- One legal advance of a rendition status along
`queued → running → {ready | failed}`. -/
def advanceStep (a b : RendStatus) : Bool :=
  match a, b with
  | .queued, .running => true
  | .running, .ready => true
  | .running, .failed => true
  | _, _ => false

/-- The terminal status a profile's rendition receives in step 4. -/
def termStatus (encode : Nat → Except String String) (p : Nat) : RendStatus :=
  match encode p with
  | .ok _ => .ready
  | .error _ => .failed

theorem filterMap_ite_nodup {α : Type _} (p : Nat) (h : Nat → α) :
    ∀ ps : List Nat, ps.Nodup →
      ps.filterMap (fun q => if q = p then some (h q) else none) =
        if p ∈ ps then [h p] else []
  | [], _ => by simp
  | a :: t, hnd => by
      obtain ⟨ha, ht⟩ := List.nodup_cons.mp hnd
      by_cases hap : a = p
      · subst hap
        rw [@List.filterMap_cons_some _ _
            (fun q => if q = a then some (h q) else none) a t (h a) (by simp),
          filterMap_ite_nodup a h t ht, if_neg ha,
          if_pos (List.mem_cons_self a t)]
      · rw [@List.filterMap_cons_none _ _
            (fun q => if q = p then some (h q) else none) a t (by simp [hap]),
          filterMap_ite_nodup p h t ht]
        by_cases hpt : p ∈ t
        · rw [if_pos hpt, if_pos (List.mem_cons_of_mem a hpt)]
        · rw [if_neg hpt, if_neg ?_]
          intro hc
          rcases List.mem_cons.mp hc with hc | hc
          · exact hap hc.symm
          · exact hpt hc

theorem statusEvents_rendRunning_block (p : Nat) (ps : List Nat)
    (hnd : ps.Nodup) :
    statusEvents p (ps.map Event.rendRunning) =
      if p ∈ ps then [RendStatus.running] else [] := by
  unfold statusEvents
  rw [List.filterMap_map]
  exact filterMap_ite_nodup p (fun _ => RendStatus.running) ps hnd

theorem statusEvents_profileEvents_block (encode : Nat → Except String String)
    (p : Nat) (ps : List Nat) (hnd : ps.Nodup) :
    statusEvents p (ps.map (profileEvent encode)) =
      if p ∈ ps then [termStatus encode p] else [] := by
  unfold statusEvents
  rw [List.filterMap_map]
  have hfun : ∀ q : Nat,
      ((fun e =>
        match e with
        | .rendRunning q2 => if q2 = p then some RendStatus.running else none
        | .rendReady q2 _ => if q2 = p then some RendStatus.ready else none
        | .rendFailed q2 _ => if q2 = p then some RendStatus.failed else none
        | _ => none) ∘ profileEvent encode) q =
        (fun q => if q = p then some (termStatus encode q) else none) q := by
    intro q
    simp only [Function.comp]
    cases hk : encode q <;> simp [profileEvent, termStatus, hk]
  rw [List.filterMap_congr fun q _ => hfun q]
  exact filterMap_ite_nodup p (termStatus encode) ps hnd

/-- C3: along any single processing attempt, a rendition's status only
advances along `queued → running → {ready | failed}` — the full sequence
of status values written for each profile's rendition row, starting from
its creation as `queued`, is a chain of legal advances; in particular a
rendition observed `ready` or `failed` never transitions again. -/
theorem c3_rendition_status_monotone (download : Except String Unit)
    (encode : Nat → Except String String) (bw : Nat → Nat) (ps : List Nat)
    (p : Nat) (hnd : ps.Nodup) :
    List.Chain' (fun a b => advanceStep a b = true)
      (RendStatus.queued :: statusEvents p (workerTrace download encode bw ps)) := by
  cases download with
  | error msg =>
      have htrace : statusEvents p (workerTrace (.error msg) encode bw ps) =
          if p ∈ ps then [RendStatus.running] else [] := by
        show statusEvents p (Event.jobRunning ::
          (ps.map Event.rendRunning ++ [Event.jobFailed msg])) = _
        unfold statusEvents
        rw [List.filterMap_cons_none rfl, List.filterMap_append]
        show statusEvents p (ps.map Event.rendRunning) ++ _ = _
        rw [statusEvents_rendRunning_block p ps hnd]
        simp [statusEvents]
      rw [htrace]
      by_cases hp : p ∈ ps
      · rw [if_pos hp]
        simp [List.chain'_cons, List.chain'_singleton, advanceStep]
      · rw [if_neg hp]
        simp [List.chain'_singleton]
  | ok u =>
      cases u
      have htrace : statusEvents p (workerTrace (.ok ()) encode bw ps) =
          (if p ∈ ps then [RendStatus.running] else []) ++
            (if p ∈ ps then [termStatus encode p] else []) := by
        show statusEvents p (Event.jobRunning ::
          (ps.map Event.rendRunning ++ (ps.map (profileEvent encode) ++
            (if (readyVariants encode bw ps).isEmpty then
              [Event.jobFailed (aggregateError encode ps)]
            else
              [Event.uploadMaster (assembleMaster (readyVariants encode bw ps)),
               Event.jobDone])))) = _
        unfold statusEvents
        rw [List.filterMap_cons_none rfl, List.filterMap_append,
          List.filterMap_append]
        show statusEvents p (ps.map Event.rendRunning) ++
          (statusEvents p (ps.map (profileEvent encode)) ++ _) = _
        rw [statusEvents_rendRunning_block p ps hnd,
          statusEvents_profileEvents_block encode p ps hnd]
        by_cases hempty : (readyVariants encode bw ps).isEmpty
        · rw [if_pos hempty]
          simp [statusEvents]
        · rw [if_neg hempty]
          simp [statusEvents]
      rw [htrace]
      by_cases hp : p ∈ ps
      · rw [if_pos hp, if_pos hp]
        cases hk : encode p with
        | ok k =>
            simp only [termStatus, hk]
            simp [List.chain'_cons, List.chain'_singleton, advanceStep]
        | error e =>
            simp only [termStatus, hk]
            simp [List.chain'_cons, List.chain'_singleton, advanceStep]
      · rw [if_neg hp, if_neg hp]
        simp [List.chain'_singleton]

/-- C3 witness: a two-profile attempt with one success and one failure. -/
theorem c3_rendition_status_monotone_witness :
    List.Chain' (fun a b => advanceStep a b = true)
      (RendStatus.queued :: statusEvents 480
        (workerTrace (.ok ()) (fun p => if p = 480 then .error "enc" else .ok "k")
          (fun _ => 400) [240, 480])) :=
  c3_rendition_status_monotone _ _ _ _ 480 (by decide)

/-- C6: a three-profile job `[240, 480, 720]` in which exactly the 480
encode fails still completes: the 480 failure does not abort the other
profiles, the job ends `done`, 240 and 720 are `ready` with their keys,
480 is `failed` carrying a non-empty error message, and the master
manifest lists exactly the 240 and 720 variants (ascending). -/
theorem c6_best_effort_ladder (encode : Nat → Except String String)
    (bw : Nat → Nat) (k1 k2 e : String)
    (h240 : encode 240 = .ok k1) (h480 : encode 480 = .error e)
    (he : e ≠ "") (h720 : encode 720 = .ok k2) :
    (processJob (.ok ()) encode bw [240, 480, 720]).job = .done ∧
    (processJob (.ok ()) encode bw [240, 480, 720]).renditions 240 =
      some ⟨240, .ready, some k1, none⟩ ∧
    (∃ err, (processJob (.ok ()) encode bw [240, 480, 720]).renditions 480 =
      some ⟨480, .failed, none, some err⟩ ∧ err ≠ "") ∧
    (processJob (.ok ()) encode bw [240, 480, 720]).renditions 720 =
      some ⟨720, .ready, some k2, none⟩ ∧
    ((processJob (.ok ()) encode bw [240, 480, 720]).master).map
      (fun vs => vs.map Variant.height) = some [240, 720] := by
  have hready : readyVariants encode bw [240, 480, 720] =
      [⟨240, bw 240, k1⟩, ⟨720, bw 720, k2⟩] := by
    unfold readyVariants
    rw [List.filterMap_cons, List.filterMap_cons, List.filterMap_cons, h240,
      h480, h720]
    rfl
  have hasm : assembleMaster [(⟨240, bw 240, k1⟩ : Variant), ⟨720, bw 720, k2⟩] =
      [⟨240, bw 240, k1⟩, ⟨720, bw 720, k2⟩] := by
    show List.orderedInsert variantLe ⟨240, bw 240, k1⟩
      (List.orderedInsert variantLe ⟨720, bw 720, k2⟩ []) = _
    rw [List.orderedInsert, List.orderedInsert,
      if_pos (show variantLe ⟨240, bw 240, k1⟩ ⟨720, bw 720, k2⟩ from
        by norm_num [variantLe])]
  rw [processJob_ok, hready]
  refine ⟨by simp, ?_, ⟨e, ?_, he⟩, ?_, ?_⟩
  · simp [finalRow_of_ok h240]
  · simp [finalRow_of_error h480]
  · simp [finalRow_of_ok h720]
  · simp [hasm]

/-- C6 witness: a concrete encode oracle failing exactly at 480. -/
theorem c6_best_effort_ladder_witness :
    (processJob (.ok ()) (fun p => if p = 480 then .error "boom" else
      if p = 240 then .ok "k240" else .ok "k720") (fun _ => 400)
      [240, 480, 720]).job = .done ∧
    (processJob (.ok ()) (fun p => if p = 480 then .error "boom" else
      if p = 240 then .ok "k240" else .ok "k720") (fun _ => 400)
      [240, 480, 720]).renditions 240 = some ⟨240, .ready, some "k240", none⟩ ∧
    (∃ err, (processJob (.ok ()) (fun p => if p = 480 then .error "boom" else
      if p = 240 then .ok "k240" else .ok "k720") (fun _ => 400)
      [240, 480, 720]).renditions 480 = some ⟨480, .failed, none, some err⟩ ∧
      err ≠ "") ∧
    (processJob (.ok ()) (fun p => if p = 480 then .error "boom" else
      if p = 240 then .ok "k240" else .ok "k720") (fun _ => 400)
      [240, 480, 720]).renditions 720 = some ⟨720, .ready, some "k720", none⟩ ∧
    ((processJob (.ok ()) (fun p => if p = 480 then .error "boom" else
      if p = 240 then .ok "k240" else .ok "k720") (fun _ => 400)
      [240, 480, 720]).master).map (fun vs => vs.map Variant.height) =
      some [240, 720] :=
  c6_best_effort_ladder _ _ "k240" "k720" "boom" rfl rfl (by decide) rfl

/-- Events that finalize a processing attempt: the master playlist
upload and the job's final done or failed update. -/
def isFinalize : Event → Bool
  | .uploadMaster _ => true
  | .jobDone => true
  | .jobFailed _ => true
  | _ => false

/-- Terminal status event for profile `p`'s rendition. -/
def isTermFor (p : Nat) : Event → Bool
  | .rendReady q _ => q == p
  | .rendFailed q _ => q == p
  | _ => false

/-- The first half of the ordering discipline: the job is marked
running strictly before any rendition is marked running. -/
def jobRunningFirst (tr : List Event) : Prop :=
  ∀ (j : Nat) (p0 : Nat), tr[j]? = some (Event.rendRunning p0) →
    ∃ i : Nat, i < j ∧ tr[i]? = some Event.jobRunning

/-- The ordering discipline claimed for one processing attempt: the job
is marked running strictly before any rendition is marked running, and
the master upload and the job's final done/failed update happen strictly
after every listed rendition reached a terminal state. -/
def orderedAttempt (tr : List Event) (ps : List Nat) : Prop :=
  jobRunningFirst tr ∧
  (∀ (j : Nat) (e : Event), tr[j]? = some e → isFinalize e = true →
    ∀ p ∈ ps, ∃ (i : Nat) (e2 : Event),
      i < j ∧ tr[i]? = some e2 ∧ isTermFor p e2 = true)

/-- C7 counterexample: when the source download fails, the job's final
`failed` update happens although no listed rendition ever reached a
terminal state, so the ordering discipline does not hold as stated. -/
theorem c7_counterexample :
    ¬ orderedAttempt
        (workerTrace (.error "boom") (fun _ => .ok "k") (fun _ => 400) [240])
        [240] := by
  intro h
  unfold orderedAttempt at h
  obtain ⟨i, e2, hi, hget, hterm⟩ :=
    h.2 2 (Event.jobFailed "boom") rfl rfl 240 (List.mem_cons_self 240 [])
  have hcases : i = 0 ∨ i = 1 := by omega
  rcases hcases with rfl | rfl
  · have h0 : (workerTrace (.error "boom") (fun _ => .ok "k") (fun _ => 400)
        [240])[0]? = some Event.jobRunning := rfl
    rw [h0] at hget
    rw [← Option.some_inj.mp hget] at hterm
    exact absurd hterm (by decide)
  · have h1 : (workerTrace (.error "boom") (fun _ => .ok "k") (fun _ => 400)
        [240])[1]? = some (Event.rendRunning 240) := rfl
    rw [h1] at hget
    rw [← Option.some_inj.mp hget] at hterm
    exact absurd hterm (by decide)

theorem isFinalize_false_of_mem_prelude (encode : Nat → Except String String)
    (ps : List Nat) (e : Event)
    (he : e ∈ Event.jobRunning :: (ps.map Event.rendRunning ++
      ps.map (profileEvent encode))) : isFinalize e = false := by
  rcases List.mem_cons.mp he with rfl | he2
  · rfl
  rcases List.mem_append.mp he2 with he3 | he3
  · obtain ⟨q, _, rfl⟩ := List.mem_map.mp he3
    rfl
  · obtain ⟨q, _, rfl⟩ := List.mem_map.mp he3
    unfold profileEvent
    cases encode q <;> rfl

theorem isTermFor_profileEvent (encode : Nat → Except String String)
    (p : Nat) : isTermFor p (profileEvent encode p) = true := by
  unfold profileEvent isTermFor
  cases encode p <;> simp

theorem jobRunningFirst_workerTrace (download : Except String Unit)
    (encode : Nat → Except String String) (bw : Nat → Nat) (ps : List Nat) :
    jobRunningFirst (workerTrace download encode bw ps) := by
  have h0 : (workerTrace download encode bw ps)[0]? =
      some Event.jobRunning := by
    cases download with
    | error msg =>
        show (Event.jobRunning :: (ps.map Event.rendRunning ++
          [Event.jobFailed msg]))[0]? = some Event.jobRunning
        exact List.getElem?_cons_zero
    | ok u =>
        cases u
        show (Event.jobRunning :: (ps.map Event.rendRunning ++
          (ps.map (profileEvent encode) ++ _)))[0]? = some Event.jobRunning
        exact List.getElem?_cons_zero
  unfold jobRunningFirst
  intro j p0 hj
  refine ⟨0, ?_, h0⟩
  rcases Nat.eq_zero_or_pos j with rfl | hpos
  · rw [h0] at hj
    cases Option.some_inj.mp hj
  · exact hpos

theorem orderedAttempt_ok (encode : Nat → Except String String)
    (bw : Nat → Nat) (ps : List Nat) :
    orderedAttempt (workerTrace (.ok ()) encode bw ps) ps := by
  have htr : workerTrace (.ok ()) encode bw ps =
      (Event.jobRunning :: (ps.map Event.rendRunning ++
        ps.map (profileEvent encode))) ++
        (if (readyVariants encode bw ps).isEmpty then
          [Event.jobFailed (aggregateError encode ps)]
        else
          [Event.uploadMaster (assembleMaster (readyVariants encode bw ps)),
           Event.jobDone]) := by
    show Event.jobRunning :: (ps.map Event.rendRunning ++
      (ps.map (profileEvent encode) ++ _)) = _
    rw [List.cons_append, List.append_assoc]
  unfold orderedAttempt
  constructor
  · exact jobRunningFirst_workerTrace (.ok ()) encode bw ps
  · intro j e hj hfin p hp
    set pre : List Event := Event.jobRunning :: (ps.map Event.rendRunning ++
      ps.map (profileEvent encode)) with hpre
    have hlenpre : pre.length = 1 + (ps.length + ps.length) := by
      rw [hpre]
      simp only [List.length_cons, List.length_append, List.length_map]
      omega
    have hjge : pre.length ≤ j := by
      by_contra hlt
      push_neg at hlt
      have hjpre : (workerTrace (.ok ()) encode bw ps)[j]? = pre[j]? := by
        rw [htr]
        exact List.getElem?_append_left hlt
      rw [hjpre] at hj
      obtain ⟨hlt2, heq⟩ := List.getElem?_eq_some_iff.mp hj
      have hmem : e ∈ pre := heq ▸ List.getElem_mem hlt2
      rw [isFinalize_false_of_mem_prelude encode ps e hmem] at hfin
      cases hfin
    obtain ⟨n, hn⟩ := List.mem_iff_getElem?.mp
      (List.mem_map_of_mem (profileEvent encode) hp)
    have hnlt : n < ps.length := by
      obtain ⟨hlt2, _⟩ := List.getElem?_eq_some_iff.mp hn
      simpa using hlt2
    refine ⟨1 + ps.length + n, profileEvent encode p, ?_, ?_, ?_⟩
    · omega
    · rw [htr, List.getElem?_append_left (by rw [hlenpre]; omega)]
      have hidx : 1 + ps.length + n = (ps.length + n) + 1 := by omega
      rw [hpre, hidx, List.getElem?_cons_succ,
        List.getElem?_append_right (by simp)]
      simpa using hn
    · exact isTermFor_profileEvent encode p

/-- C7 (amended): within one job the job is marked running strictly
before any rendition is marked running — on every path, the setup
failure included; and provided the source download succeeds (no fatal
setup failure), the full ordering discipline holds: the master upload
and the final done/failed update additionally happen strictly after
every listed rendition reached a terminal state. -/
theorem c7_ordering_amended (download : Except String Unit)
    (encode : Nat → Except String String) (bw : Nat → Nat) (ps : List Nat) :
    jobRunningFirst (workerTrace download encode bw ps) ∧
    (download = .ok () →
      orderedAttempt (workerTrace download encode bw ps) ps) :=
  ⟨jobRunningFirst_workerTrace download encode bw ps, by
    intro hdl
    subst hdl
    exact orderedAttempt_ok encode bw ps⟩

/-- C7 witness: the job-running-first half on a concrete failed-download
attempt, and the full discipline on a concrete successful one. -/
theorem c7_ordering_amended_witness :
    jobRunningFirst
      (workerTrace (.error "boom") (fun _ => .ok "k") (fun _ => 400) [240]) ∧
    orderedAttempt
      (workerTrace (.ok ()) (fun _ => .ok "k") (fun _ => 400) [240, 480])
      [240, 480] :=
  ⟨(c7_ordering_amended (.error "boom") (fun _ => .ok "k") (fun _ => 400)
      [240]).1,
    (c7_ordering_amended (.ok ()) (fun _ => .ok "k") (fun _ => 400)
      [240, 480]).2 rfl⟩

/-! ### Job Producer (modelled from the spec, §4.1) -/

/-- A work-queue descriptor: job id, video id and the ordered profiles. -/
structure Descriptor where
  job_id : String
  video_id : String
  profiles : List Nat
deriving DecidableEq, Repr

/-- The metadata store rows the producer touches, plus the work queue:
`videos(id, ...)`, `jobs(id, video_id, status)`,
`renditions(video_id, height, status)`. -/
structure MetaDB where
  videos : List String
  jobs : List (String × String × JobStatus)
  renditions : List (String × Nat × RendStatus)
  queue : List Descriptor
deriving DecidableEq, Repr

/-- Producer failure modes (§4.1). -/
inductive ProducerError
  | notFound
  | invalidProfile
deriving DecidableEq, Repr

/-- Modelled from the spec: the default profile ladder 240, 480, 720. -/
def defaultLadder : List Nat := [240, 480, 720]

/-- Modelled from the spec: the Job Producer (§4.1) — given a video id
and an optional ordered profile list (default ladder when omitted), fail
with NotFound when the video id is unknown, with InvalidProfile when a
requested height is outside the supported set; otherwise create one
queued Job row, one queued Rendition row per profile, and enqueue exactly
one descriptor.  The producer's code is not in the source tree. -/
def produce (db : MetaDB) (jobId videoId : String)
    (profilesOpt : Option (List Nat)) (supported : List Nat) :
    MetaDB × Except ProducerError Unit :=
  if videoId ∈ db.videos then
    let ps := profilesOpt.getD defaultLadder
    if ps.all (fun p => supported.contains p) then
      ({ db with
          jobs := db.jobs ++ [(jobId, videoId, JobStatus.queued)],
          renditions := db.renditions ++
            ps.map (fun p => (videoId, p, RendStatus.queued)),
          queue := db.queue ++ [⟨jobId, videoId, ps⟩] }, .ok ())
    else (db, .error .invalidProfile)
  else (db, .error .notFound)

/-- C5: for an unknown video identifier the producer fails with NotFound
and leaves all state unchanged — no Job row, no Rendition rows, nothing
enqueued. -/
theorem c5_unknown_video_not_found (db : MetaDB) (jobId videoId : String)
    (profilesOpt : Option (List Nat)) (supported : List Nat)
    (h : videoId ∉ db.videos) :
    produce db jobId videoId profilesOpt supported =
      (db, .error .notFound) ∧
    (produce db jobId videoId profilesOpt supported).1.jobs = db.jobs ∧
    (produce db jobId videoId profilesOpt supported).1.renditions =
      db.renditions ∧
    (produce db jobId videoId profilesOpt supported).1.queue = db.queue := by
  have hmain : produce db jobId videoId profilesOpt supported =
      (db, .error .notFound) := by
    unfold produce
    rw [if_neg h]
  exact ⟨hmain, by rw [hmain], by rw [hmain], by rw [hmain]⟩

/-- C5 witness: a concrete store that does not know the video id. -/
theorem c5_unknown_video_not_found_witness :
    produce ⟨["v1"], [], [], []⟩ "j1" "v2" none [240, 480, 720] =
      (⟨["v1"], [], [], []⟩, .error .notFound) ∧
    (produce ⟨["v1"], [], [], []⟩ "j1" "v2" none [240, 480, 720]).1.jobs =
      (⟨["v1"], [], [], []⟩ : MetaDB).jobs ∧
    (produce ⟨["v1"], [], [], []⟩ "j1" "v2" none
      [240, 480, 720]).1.renditions =
      (⟨["v1"], [], [], []⟩ : MetaDB).renditions ∧
    (produce ⟨["v1"], [], [], []⟩ "j1" "v2" none [240, 480, 720]).1.queue =
      (⟨["v1"], [], [], []⟩ : MetaDB).queue :=
  c5_unknown_video_not_found _ _ _ _ _ (by decide)

/-! ### Web frontend handlers (embedded from the TypeScript source) -/

/-- Actions the home page's `onUpload` handler performs, in order. -/
inductive UploadAction
  | reqUpload
  | reqTranscode (videoId : String) (profilesOpt : Option (List Nat))
  | navigate (path : String)
deriving DecidableEq, Repr

/-- From `apps/web/app/page.tsx`, `onUpload`: if no file is selected,
return without any request; otherwise POST /upload; if it is not ok,
throw — no further action; otherwise POST /jobs/transcode with a JSON
body carrying only the video id — the profiles field is omitted; if it
is not ok, throw; otherwise navigate to the watch page for the video. -/
def onUpload (file : Option Unit) (uploadOk : Bool) (videoId : String)
    (jobOk : Bool) : List UploadAction :=
  match file with
  | none => []
  | some _ =>
      UploadAction.reqUpload ::
        (if uploadOk then
          UploadAction.reqTranscode videoId none ::
            (if jobOk then [UploadAction.navigate ("/watch/" ++ videoId)]
             else [])
        else [])

/-- C8: an accepted request that omits the profiles list — as the web
client's onUpload does, sending only the video id — gets the default
ladder: the producer succeeds, appends exactly one queued Rendition row
per default profile (240, 480, 720), and enqueues exactly one descriptor
whose profiles field is the default ladder; and every transcode request
onUpload issues indeed omits the profiles list. -/
theorem c8_default_ladder (db : MetaDB) (jobId videoId : String)
    (supported : List Nat) (hvid : videoId ∈ db.videos)
    (hsup : defaultLadder.all (fun p => supported.contains p) = true) :
    (produce db jobId videoId none supported).2 = .ok () ∧
    (produce db jobId videoId none supported).1.jobs =
      db.jobs ++ [(jobId, videoId, JobStatus.queued)] ∧
    (produce db jobId videoId none supported).1.renditions =
      db.renditions ++ [(videoId, 240, RendStatus.queued),
        (videoId, 480, RendStatus.queued),
        (videoId, 720, RendStatus.queued)] ∧
    (produce db jobId videoId none supported).1.queue =
      db.queue ++ [⟨jobId, videoId, [240, 480, 720]⟩] ∧
    ∀ (vid : String) (psOpt : Option (List Nat)) (f : Option Unit)
      (u j : Bool),
      UploadAction.reqTranscode vid psOpt ∈ onUpload f u videoId j →
        vid = videoId ∧ psOpt = none := by
  have hprod : produce db jobId videoId none supported =
      ({ db with
          jobs := db.jobs ++ [(jobId, videoId, JobStatus.queued)],
          renditions := db.renditions ++ [(videoId, 240, RendStatus.queued),
            (videoId, 480, RendStatus.queued),
            (videoId, 720, RendStatus.queued)],
          queue := db.queue ++ [⟨jobId, videoId, [240, 480, 720]⟩] },
        .ok ()) := by
    unfold produce
    rw [if_pos hvid]
    show (if defaultLadder.all (fun p => supported.contains p) then _
      else _) = _
    rw [if_pos hsup]
    rfl
  refine ⟨by rw [hprod], by rw [hprod], by rw [hprod], by rw [hprod], ?_⟩
  intro vid psOpt f u j hmem
  cases f with
  | none => simp [onUpload] at hmem
  | some _ =>
      cases u with
      | false => simp [onUpload] at hmem
      | true =>
          cases j with
          | false =>
              simp [onUpload] at hmem
              exact ⟨hmem.1, hmem.2⟩
          | true =>
              simp [onUpload] at hmem
              exact ⟨hmem.1, hmem.2⟩

/-- C8 witness: a concrete known video with the default supported set. -/
theorem c8_default_ladder_witness :
    (produce ⟨["v1"], [], [], []⟩ "j1" "v1" none [240, 480, 720]).2 =
      .ok () ∧
    (produce ⟨["v1"], [], [], []⟩ "j1" "v1" none [240, 480, 720]).1.jobs =
      (⟨["v1"], [], [], []⟩ : MetaDB).jobs ++
        [("j1", "v1", JobStatus.queued)] ∧
    (produce ⟨["v1"], [], [], []⟩ "j1" "v1" none
      [240, 480, 720]).1.renditions =
      (⟨["v1"], [], [], []⟩ : MetaDB).renditions ++
        [("v1", 240, RendStatus.queued), ("v1", 480, RendStatus.queued),
          ("v1", 720, RendStatus.queued)] ∧
    (produce ⟨["v1"], [], [], []⟩ "j1" "v1" none [240, 480, 720]).1.queue =
      (⟨["v1"], [], [], []⟩ : MetaDB).queue ++
        [⟨"j1", "v1", [240, 480, 720]⟩] ∧
    ∀ (vid : String) (psOpt : Option (List Nat)) (f : Option Unit)
      (u j : Bool),
      UploadAction.reqTranscode vid psOpt ∈ onUpload f u "v1" j →
        vid = "v1" ∧ psOpt = none :=
  c8_default_ladder _ _ _ _ (by decide) (by decide)

/-- Player status displayed by the watch page. -/
inductive PlayerStatus
  | idle
  | loading
  | playing
  | error
deriving DecidableEq, Repr

/-- React state of the watch page: displayed status, the startup metric,
the rebuffer counter, and the effect-local `firstPlayAt` closure
variable. -/
structure WatchState where
  status : PlayerStatus
  startupMs : Option Nat
  rebufferCount : Nat
  firstPlayAt : Option Nat
deriving DecidableEq, Repr

/-- Media events the watch-page effect reacts to: a `playing` event
carrying the current clock value, a `waiting` event, and a fatal hls.js
error. -/
inductive PlayerEvent
  | playing (now : Nat)
  | waiting
  | fatalError
deriving DecidableEq, Repr

/-- From `apps/web/app/watch/[id]/page.tsx`: the effect's handlers.
`onPlaying` acts only when `firstPlayAt` is still unset — it records the
timestamp, sets `startupMs` to the elapsed time since effect start and
the status to playing; on any later `playing` event it does nothing.
`onWaiting` increments `rebufferCount` by one.  A fatal hls error sets
the status to error. -/
def watchStep (start : Nat) (s : WatchState) : PlayerEvent → WatchState
  | .playing now =>
      match s.firstPlayAt with
      | none => { s with
          firstPlayAt := some now
          startupMs := some (now - start)
          status := .playing }
      | some _ => s
  | .waiting => { s with rebufferCount := s.rebufferCount + 1 }
  | .fatalError => { s with status := .error }

/-- State right after the effect attached its listeners and called
`setStatus('loading')`: no startup metric, zero rebuffers. -/
def initWatch : WatchState := ⟨.loading, none, 0, none⟩

/-- The watch-page state after a sequence of media events. -/
def watchRun (start : Nat) (evs : List PlayerEvent) : WatchState :=
  evs.foldl (watchStep start) initWatch

/-- Clock value of the first `playing` event of a sequence, if any. -/
def firstPlayingTime (evs : List PlayerEvent) : Option Nat :=
  evs.findSome? fun e =>
    match e with
    | .playing t => some t
    | _ => none

/-- Whether an event is a `waiting` event. -/
def isWaiting : PlayerEvent → Bool
  | .waiting => true
  | _ => false

theorem watchFold_spec (start : Nat) :
    ∀ (evs : List PlayerEvent) (s : WatchState),
      ((evs.foldl (watchStep start) s).rebufferCount =
        s.rebufferCount + evs.countP isWaiting) ∧
      (s.firstPlayAt = none → s.startupMs = none →
        (evs.foldl (watchStep start) s).startupMs =
          (firstPlayingTime evs).map (fun t => t - start) ∧
        (evs.foldl (watchStep start) s).firstPlayAt = firstPlayingTime evs) ∧
      (∀ t0 : Nat, s.firstPlayAt = some t0 →
        (evs.foldl (watchStep start) s).startupMs = s.startupMs ∧
        (evs.foldl (watchStep start) s).firstPlayAt = some t0)
  | [], s => by
      refine ⟨by simp, fun h1 h2 => ?_, fun t0 h => ?_⟩
      · simp [firstPlayingTime, h1, h2]
      · simp [h]
  | e :: evs, s => by
      rw [List.foldl_cons]
      cases e with
      | playing now =>
          cases hfp : s.firstPlayAt with
          | none =>
              have hstep : watchStep start s (.playing now) =
                  { s with
                    firstPlayAt := some now
                    startupMs := some (now - start)
                    status := .playing } := by
                unfold watchStep
                rw [hfp]
              rw [hstep]
              have ih := watchFold_spec start evs
                { s with
                  firstPlayAt := some now
                  startupMs := some (now - start)
                  status := .playing }
              refine ⟨?_, fun h1 h2 => ?_, fun t0 h => ?_⟩
              · rw [ih.1]
                simp [List.countP_cons, isWaiting]
              · have h3 := ih.2.2 now rfl
                refine ⟨?_, ?_⟩
                · rw [h3.1]
                  simp [firstPlayingTime, List.findSome?_cons]
                · rw [h3.2]
                  simp [firstPlayingTime, List.findSome?_cons]
              · simp at h
          | some t1 =>
              have hstep : watchStep start s (.playing now) = s := by
                unfold watchStep
                rw [hfp]
              rw [hstep]
              have ih := watchFold_spec start evs s
              refine ⟨?_, fun h1 h2 => ?_, fun t0 h => ?_⟩
              · rw [ih.1]
                simp [List.countP_cons, isWaiting]
              · exact absurd h1 (by simp)
              · exact ih.2.2 t0 (hfp.trans h)
      | waiting =>
          have hstep : watchStep start s .waiting =
              { s with rebufferCount := s.rebufferCount + 1 } := rfl
          rw [hstep]
          have ih := watchFold_spec start evs
            { s with rebufferCount := s.rebufferCount + 1 }
          refine ⟨?_, fun h1 h2 => ?_, fun t0 h => ?_⟩
          · rw [ih.1]
            simp [isWaiting]
            omega
          · have := ih.2.1 h1 h2
            simpa [firstPlayingTime] using this
          · exact ih.2.2 t0 h
      | fatalError =>
          have hstep : watchStep start s .fatalError =
              { s with status := .error } := rfl
          rw [hstep]
          have ih := watchFold_spec start evs { s with status := .error }
          refine ⟨?_, fun h1 h2 => ?_, fun t0 h => ?_⟩
          · rw [ih.1]
            simp [isWaiting]
          · have := ih.2.1 h1 h2
            simpa [firstPlayingTime] using this
          · exact ih.2.2 t0 h

/-- C9: in the watch page, the startup metric is set at most once per
mount — after any sequence of media events, `startupMs` is exactly the
elapsed time of the first `playing` event (and unset when none fired),
`rebufferCount` is exactly the number of `waiting` events (each one
increments it by one), and once some `playing` event has been handled,
any later `playing` event leaves the whole state — in particular
`startupMs` and `status` — unchanged. -/
theorem c9_startup_metric_once (start : Nat) (evs : List PlayerEvent) :
    (watchRun start evs).rebufferCount = evs.countP isWaiting ∧
    (watchRun start evs).startupMs =
      (firstPlayingTime evs).map (fun t => t - start) ∧
    (∀ s : WatchState, watchStep start s .waiting =
      { s with rebufferCount := s.rebufferCount + 1 }) ∧
    (∀ (pre : List PlayerEvent) (t0 t : Nat), PlayerEvent.playing t0 ∈ pre →
      watchStep start (watchRun start pre) (.playing t) = watchRun start pre) := by
  have hspec := watchFold_spec start evs initWatch
  refine ⟨by simpa [watchRun, initWatch] using hspec.1,
    (hspec.2.1 rfl rfl).1, fun s => rfl, ?_⟩
  intro pre t0 t hmem
  have hpre := (watchFold_spec start pre initWatch).2.1 rfl rfl
  have hne : firstPlayingTime pre ≠ none := by
    intro hnone
    unfold firstPlayingTime at hnone
    rw [List.findSome?_eq_none_iff] at hnone
    have := hnone (PlayerEvent.playing t0) hmem
    cases this
  cases hfp : firstPlayingTime pre with
  | none => exact absurd hfp hne
  | some t1 =>
      have hstate : (watchRun start pre).firstPlayAt = some t1 := by
        rw [watchRun, hpre.2, hfp]
      unfold watchStep
      rw [hstate]

/-- C9 witness: a concrete event sequence with two playing events and
one waiting event. -/
theorem c9_startup_metric_once_witness :
    (watchRun 2 [PlayerEvent.playing 5, PlayerEvent.waiting,
      PlayerEvent.playing 9]).rebufferCount =
      ([PlayerEvent.playing 5, PlayerEvent.waiting,
        PlayerEvent.playing 9].countP isWaiting) ∧
    (watchRun 2 [PlayerEvent.playing 5, PlayerEvent.waiting,
      PlayerEvent.playing 9]).startupMs =
      (firstPlayingTime [PlayerEvent.playing 5, PlayerEvent.waiting,
        PlayerEvent.playing 9]).map (fun t => t - 2) ∧
    watchStep 2 (watchRun 2 [PlayerEvent.playing 5, PlayerEvent.waiting])
      (.playing 9) = watchRun 2 [PlayerEvent.playing 5, PlayerEvent.waiting] :=
  ⟨(c9_startup_metric_once 2 _).1, (c9_startup_metric_once 2 _).2.1,
    (c9_startup_metric_once 2 []).2.2.2 [PlayerEvent.playing 5,
      PlayerEvent.waiting] 5 9 (by decide)⟩

/-- C10: in the home page's onUpload handler, no network request is made
when no file is selected; the transcode POST is issued only when the
upload responded ok; and navigation to the watch page happens only when
both the upload and the job-creation responses were ok — and always to
the uploaded video's watch path, with the upload request first. -/
theorem c10_onUpload_guarded (file : Option Unit) (uploadOk jobOk : Bool)
    (videoId : String) :
    onUpload none uploadOk videoId jobOk = [] ∧
    (∀ (vid : String) (psOpt : Option (List Nat)),
      UploadAction.reqTranscode vid psOpt ∈
        onUpload file uploadOk videoId jobOk → uploadOk = true) ∧
    (∀ path : String,
      UploadAction.navigate path ∈ onUpload file uploadOk videoId jobOk →
        uploadOk = true ∧ jobOk = true ∧ path = "/watch/" ++ videoId) ∧
    (onUpload file uploadOk videoId jobOk ≠ [] →
      (onUpload file uploadOk videoId jobOk).head? =
        some UploadAction.reqUpload) := by
  refine ⟨rfl, ?_, ?_, ?_⟩
  · intro vid psOpt hmem
    cases file with
    | none => simp [onUpload] at hmem
    | some _ =>
        cases uploadOk with
        | true => rfl
        | false => simp [onUpload] at hmem
  · intro path hmem
    cases file with
    | none => simp [onUpload] at hmem
    | some _ =>
        cases uploadOk with
        | false => simp [onUpload] at hmem
        | true =>
            cases jobOk with
            | false => simp [onUpload] at hmem
            | true =>
                simp [onUpload] at hmem
                exact ⟨rfl, rfl, hmem⟩
  · intro hne
    cases file with
    | none => exact absurd rfl hne
    | some _ => rfl

/-- C10 witness: the handler's trace for a selected file with both
responses ok, and the empty trace when no file is selected. -/
theorem c10_onUpload_guarded_witness :
    (true = true ∧ true = true ∧ "/watch/v1" = "/watch/" ++ "v1") ∧
    onUpload none true "v1" true = [] :=
  ⟨(c10_onUpload_guarded (some ()) true true "v1").2.2.1 "/watch/v1"
      (by decide),
    (c10_onUpload_guarded (some ()) true true "v1").1⟩

end NextTube
